import Mathlib

/-!
# A shallow embedding of the paper.js `Path` core (src/src/path/Path.js)

Coordinates are rationals (the JavaScript source computes with IEEE doubles;
the claims checked here are about exact control flow and algebra, so exact
rational arithmetic is the faithful choice, with the two float-specific
claims — NaN/Infinity propagation in `curveTo` and `arcTo` — modelled
explicitly via `Option`-guarded operations).

Classes that the repository uses but that are not under `src/` (`Segment.js`,
`Curve.js`, `Point.js`, `Rectangle.js`, `Numerical.js`) are modelled from the
spec where needed; every such definition carries a doc comment starting with
`Modelled from the spec:`.  Everything else is translated line by line from
`src/src/path/Path.js`.
-/

/-- A point / vector: pair of coordinates, value type (spec §3). -/
structure Point where
  x : ℚ
  y : ℚ
  deriving DecidableEq, Repr

instance : Inhabited Point := ⟨⟨0, 0⟩⟩

instance : Add Point := ⟨fun a b => ⟨a.x + b.x, a.y + b.y⟩⟩

instance : Sub Point := ⟨fun a b => ⟨a.x - b.x, a.y - b.y⟩⟩

theorem Point.add_def (a b : Point) : a + b = ⟨a.x + b.x, a.y + b.y⟩ := rfl

theorem Point.sub_def (a b : Point) : a - b = ⟨a.x - b.x, a.y - b.y⟩ := rfl

/-- A segment: anchor point, two relative handle vectors, back-reference to the
owning path (`_path`; the model tracks a single path, so `some ()` means
"attached"), the `_index` bookkeeping field and the `_selectionState` flag
(modelled as a Bool: the claims only depend on truthiness). -/
structure Segment where
  point : Point
  handleIn : Point
  handleOut : Point
  path : Option Unit
  index : Option ℕ
  selectionState : Bool
  deriving DecidableEq, Repr

instance : Inhabited Segment := ⟨⟨default, default, default, none, none, false⟩⟩

/-- `new Segment(point)`: zero handles, unattached. -/
def mkSegment (p : Point) : Segment := ⟨p, ⟨0, 0⟩, ⟨0, 0⟩, none, none, false⟩

/-- Modelled from the spec: `new Segment(segment)` (Segment.js is not in
`src/`) deep-copies point and handles; the copy is fresh, hence unattached
("each incoming segment, if already owned by a path, is first deep-copied"). -/
def cloneSegment (s : Segment) : Segment :=
  ⟨s.point, s.handleIn, s.handleOut, none, none, false⟩

/-- A materialized curve of the `_curves` cache: `Curve.create(path, seg1, seg2)`
keeps the two boundary segments (value copies here; the claims about the curve
list only inspect its length and boundary updates). -/
structure CurveM where
  segment1 : Segment
  segment2 : Segment
  deriving DecidableEq, Repr

instance : Inhabited CurveM := ⟨⟨default, default⟩⟩

/-- The `Path` state: ordered segment list, `_closed`, the lazily built
`_curves` cache (`none` = not yet requested), `_selectedSegmentCount` and the
cached `_clockwise` flag.  The scalar caches `_length`/`_bounds`/`_position`/
`_strokeBounds` are recomputed where queried and are not stored in the model. -/
structure PathM where
  segments : List Segment
  closed : Bool
  curves : Option (List CurveM)
  selectedSegmentCount : ℤ
  clockwise : Option Bool
  deriving DecidableEq, Repr

def emptyPath : PathM := ⟨[], false, none, 0, none⟩

/-- `_changed(ChangeFlags.GEOMETRY)`: drops the cached length, bounds, position,
stroke bounds and clockwise state.  Of these the model stores only
`clockwise`; note that the `_curves` cache is *not* dropped. -/
def PathM.changedGeometry (p : PathM) : PathM := { p with clockwise := none }

/-- The curve-list length computed in `getCurves`/`setClosed`:
"Reduce length by one if it's an open path". -/
def curveCount (n : ℕ) (closed : Bool) : ℕ :=
  if ¬closed ∧ 0 < n then n - 1 else n

/-- The body of `getCurves` that builds the `_curves` array:
`Curve.create(this, segments[i], segments[i + 1] || segments[0])`. -/
def PathM.getCurvesBuild (p : PathM) : List CurveM :=
  let segments := p.segments
  let len := curveCount segments.length p.closed
  (List.range len).map fun i =>
    ⟨segments.getD i default, (segments[i + 1]?).getD (segments.getD 0 default)⟩

/-- `getCurves()`: build and cache the curves view on first request. -/
def PathM.getCurves (p : PathM) : PathM × List CurveM :=
  match p.curves with
  | some cs => (p, cs)
  | none =>
    let cs := p.getCurvesBuild
    ({ p with curves := some cs }, cs)

/-- JavaScript `array.length = n` on the curves array: truncate, or pad.  The
pad value is immediately overwritten by `setClosed` in the only case where the
array grows. -/
def resizeCurves (l : List CurveM) (n : ℕ) : List CurveM :=
  l.take n ++ List.replicate (n - l.length) default

/-- `setClosed(closed)`: toggle `_closed`, resize a cached `_curves` list and,
when closing, write the new closing curve at index `length - 1`
(when `length = 0` the JavaScript write lands on array index `-1`, which
stores no element; `List.set` at an out-of-range index is likewise a no-op). -/
def PathM.setClosed (p : PathM) (closed : Bool) : PathM :=
  if p.closed = closed then p
  else
    let p1 : PathM := { p with closed := closed }
    let p2 : PathM :=
      match p.curves with
      | none => p1
      | some cs =>
        let len := curveCount p.segments.length closed
        let cs := resizeCurves cs len
        let cs :=
          if closed then
            cs.set (len - 1)
              ⟨p.segments.getD (len - 1) default, p.segments.getD 0 default⟩
          else cs
        { p1 with curves := some cs }
    p2.changedGeometry

/-- `Path#_add(segs, index)`, translated from Path.js lines 231-280: clone
foreign segments, set `_path`/`_index`, update `_selectedSegmentCount`, splice
into the segment list, re-index the segments after an insertion, and patch a
cached curves list (`curves.splice(--index, 0, ...)` plus the `_segment1` fix
of the curve above the inserted run).  Returns the path and the list of
actually inserted segments. -/
def PathM._add (p : PathM) (segs0 : List Segment) (index : Option ℕ) :
    PathM × List Segment :=
  let segments := p.segments
  let amount := segs0.length
  let append := index.isNone
  let idx := index.getD segments.length
  let segs := (List.range amount).map fun i =>
    let s := segs0.getD i default
    let s := if s.path.isSome then cloneSegment s else s
    { s with path := some (), index := some (idx + i) }
  let selCount :=
    p.selectedSegmentCount + ((segs.filter fun s => s.selectionState).length : ℤ)
  let newSegments :=
    if append then segments ++ segs
    else
      let pre := segments.take idx
      let post := (segments.drop idx).enum.map fun q =>
        { q.2 with index := some (idx + amount + q.1) }
      pre ++ segs ++ post
  let newCurves :=
    match p.curves with
    | none => none
    | some cs =>
      if 1 ≤ idx then
        let i := idx - 1
        let c : CurveM := ⟨newSegments.getD i default, newSegments.getD (i + 1) default⟩
        let cs := cs.insertIdx (min i cs.length) c
        let j := i + amount
        let cs :=
          match cs[j]? with
          | some cj => cs.set j { cj with segment1 := newSegments.getD j default }
          | none => cs
        some cs
      else some cs
  (PathM.changedGeometry
    { p with segments := newSegments, curves := newCurves,
             selectedSegmentCount := selCount }, segs)

/-- `removeSegments(from, to)`, translated from Path.js lines 392-431.
`to` defaults to `segments.length - 1` (`Base.pick`).  The line
`removed._index = removed._path = undefined` of the source sets two properties
on the returned *array* object, not on the segments it contains, so the
removed segments keep their `_path` and `_index` fields; the model reproduces
that behaviour faithfully (only `_selectionState` is cleared, per segment). -/
def PathM.removeSegments (p : PathM) (fromIdx : ℕ) (toIdx? : Option ℕ) :
    PathM × List Segment :=
  let toIdx := toIdx?.getD (p.segments.length - 1)
  let segments := p.segments
  let last := segments.length ≤ toIdx
  let delCount := toIdx - fromIdx
  let removed := (segments.drop fromIdx).take delCount
  let segments := segments.take fromIdx ++ (segments.drop fromIdx).drop delCount
  let amount := removed.length
  if amount = 0 then (p, removed)
  else
    let selCount :=
      p.selectedSegmentCount - ((removed.filter fun s => s.selectionState).length : ℤ)
    let removed := removed.map fun s => { s with selectionState := false }
    let segments :=
      segments.take fromIdx ++ (segments.drop fromIdx).enum.map fun q =>
        { q.2 with index := some (fromIdx + q.1) }
    let newCurves :=
      match p.curves with
      | none => none
      | some cs =>
        let cs := cs.take fromIdx ++ cs.drop (fromIdx + amount)
        let cs :=
          if 1 ≤ fromIdx then
            match cs[fromIdx - 1]? with
            | some c =>
              cs.set (fromIdx - 1) { c with segment2 := segments.getD fromIdx default }
            | none => cs
          else cs
        let cs :=
          match cs[fromIdx]? with
          | some c => cs.set fromIdx { c with segment1 := segments.getD fromIdx default }
          | none => cs
        let cs :=
          if last ∧ p.closed then
            match cs[cs.length - 1]? with
            | some c =>
              cs.set (cs.length - 1) { c with segment2 := segments.getD 0 default }
            | none => cs
          else cs
        some cs
    (PathM.changedGeometry
      { p with segments := segments, curves := newCurves,
               selectedSegmentCount := selCount }, removed)

/-- `addSegment(segment)` / single-argument `add`. -/
def PathM.addSegment (p : PathM) (s : Segment) : PathM × Segment :=
  let r := p._add [s] none
  (r.1, r.2.getD 0 default)

/-- `insertSegment(index, segment)` / single-argument `insert`. -/
def PathM.insertSegment (p : PathM) (i : ℕ) (s : Segment) : PathM × Segment :=
  let r := p._add [s] (some i)
  (r.1, r.2.getD 0 default)

/-- `addSegments(segments)`. -/
def PathM.addSegments (p : PathM) (ss : List Segment) : PathM × List Segment :=
  p._add ss none

/-- `insertSegments(index, segments)`. -/
def PathM.insertSegments (p : PathM) (i : ℕ) (ss : List Segment) :
    PathM × List Segment :=
  p._add ss (some i)

/-- `removeSegment(index)`: `removeSegments(index, index + 1)`, first removed
segment or null. -/
def PathM.removeSegment (p : PathM) (i : ℕ) : PathM × Option Segment :=
  let r := p.removeSegments i (some (i + 1))
  (r.1, r.2[0]?)

/-- The handle swap applied per segment by `reverse()`. -/
def swapHandles (s : Segment) : Segment :=
  { s with handleIn := s.handleOut, handleOut := s.handleIn }

/-- `reverse()`: reverse the segment array, swap each segment's handles, and
flip a defined `_clockwise` cache in place.  (No `_changed` call, and the
`_index` fields are not touched.) -/
def PathM.reverse (p : PathM) : PathM :=
  { p with segments := p.segments.reverse.map swapHandles,
           clockwise := p.clockwise.map fun b => !b }

/-! ## Orientation (`isClockwise`, Path.js lines 492-522) -/

/-- The `edge(x, y)` accumulation of `isClockwise`: sum of
`(xPre - x) * (y + yPre)` over consecutive sample points (the first call only
primes `xPre`/`yPre`). -/
def edgeSum : List Point → ℚ
  | a :: b :: rest => (a.x - b.x) * (b.y + a.y) + edgeSum (b :: rest)
  | _ => 0

/-- The sample points fed to `edge`: for every curve `(seg1, seg2)` with
`seg2 = segments[i + 1 < l ? i + 1 : 0]`, the four control-polygon corners
`point1`, `point1 + handle1`, `point2 + handle2`, `point2`. -/
def clockwiseSamples (segs : List Segment) : List Point :=
  (List.range segs.length).flatMap fun i =>
    let s1 := segs.getD i default
    let s2 := segs.getD (if i + 1 < segs.length then i + 1 else 0) default
    [s1.point, s1.point + s1.handleOut, s2.point + s2.handleIn, s2.point]

/-- `isClockwise()`: return a defined `_clockwise` cache, else `sum > 0`
(the computed value is not written back to the cache). -/
def PathM.isClockwise (p : PathM) : Bool :=
  match p.clockwise with
  | some b => b
  | none => decide (0 < edgeSum (clockwiseSamples p.segments))

/-! ## Drawing commands (`moveTo`/`lineTo`/`closePath`, Path.js lines 1024-1038
and 1233-1235) -/

/-- `moveTo(point)`: a no-op unless the path is still empty. -/
def PathM.moveTo (p : PathM) (pt : Point) : PathM :=
  if p.segments.length = 0 then (p._add [mkSegment pt] none).1 else p

/-- `lineTo(point)`: append a plain segment. -/
def PathM.lineTo (p : PathM) (pt : Point) : PathM :=
  (p._add [mkSegment pt] none).1

/-- `closePath()`: `setClosed(true)`. -/
def PathM.closePath (p : PathM) : PathM := p.setClosed true

/-! ## Square roots and curve lengths -/

/-- Modelled: the host primitive `Math.sqrt` on a non-negative rational.  Exact
whenever the numerator and denominator are perfect squares (every use in the
concrete evaluations below is of this shape); a floor approximation otherwise,
which none of the theorems depend on. -/
def sqrtQ (q : ℚ) : ℚ :=
  if q ≤ 0 then 0 else (Nat.sqrt q.num.toNat : ℚ) / (Nat.sqrt q.den : ℚ)

/-- Modelled from the spec: `Curve.getLength` (Curve.js is not under `src/`).
The spec asks for a numerical arc length of the cubic; for a curve whose two
inner handles are zero the curve is its chord, whose arc length is the
Euclidean distance between the two anchor points.  The model uses the chord
length; it is evaluated only on zero-handle (straight) curves in this
development. -/
def curveLength (c : CurveM) : ℚ :=
  let dx := c.segment2.point.x - c.segment1.point.x
  let dy := c.segment2.point.y - c.segment1.point.y
  sqrtQ (dx * dx + dy * dy)

/-- `getLength()`: the sum of `curves[i].getLength()` over the curves view
(the `_length` cache is dropped on every geometry change and therefore always
agrees with this sum). -/
def PathM.getLength (p : PathM) : ℚ :=
  (p.getCurvesBuild.map curveLength).sum

/-! ## The bounds engine (Path.js lines 1239-1335) -/

/-- Modelled from the spec: `Numerical.TOLERANCE` (Numerical.js is not under
`src/`), the root-exclusion tolerance `tMin` of `getBounds`. -/
def tolTMin : ℚ := 1 / 100000

def tolTMax : ℚ := 1 - tolTMin

/-- The cubic bezier polynomial evaluated at `t` (the `add(null, t)` branch). -/
def cubicAt (v0 v1 v2 v3 t : ℚ) : ℚ :=
  let u := 1 - t
  u * u * u * v0 + 3 * u * u * t * v1 + 3 * u * t * t * v2 + t * t * t * v3

/-- The "good roots" of the derivative (scaled by 3) of the per-axis cubic:
linear case `-c / b` when `a = 0`, else the quadratic formula on
`b² - 4ac`, each root kept only when `tMin < t < tMax`. -/
def goodRoots (v0 v1 v2 v3 : ℚ) : List ℚ :=
  let a := 3 * (v1 - v2) - v0 + v3
  let b := 2 * (v0 + v2) - 4 * v1
  let c := v1 - v0
  if a = 0 then
    if b = 0 then []
    else
      let t := -c / b
      if tolTMin < t ∧ t < tolTMax then [t] else []
  else
    let b2ac := b * b - 4 * a * c
    if b2ac < 0 then []
    else
      let s := sqrtQ b2ac
      let f := 1 / (a * (-2))
      let t1 := (b - s) * f
      let t2 := (b + s) * f
      (if tolTMin < t1 ∧ t1 < tolTMax then [t1] else []) ++
        (if tolTMin < t2 ∧ t2 < tolTMax then [t2] else [])

/-- The values the inner `add` of `processSegment` feeds to the running
min/max for one axis, as `(value, padding)` pairs: the segment's own anchor
with padding `0`, then the cubic evaluated at each good root with the stroke
padding. -/
def axisCandidates (v0 v1 v2 v3 pad : ℚ) : List (ℚ × ℚ) :=
  (v3, 0) :: (goodRoots v0 v1 v2 v3).map fun t => (cubicAt v0 v1 v2 v3 t, pad)

/-- Running per-axis min/max of the bounds scan. -/
structure MinMax where
  lo : ℚ
  hi : ℚ
  deriving DecidableEq, Repr

/-- `if (left < min) min = left; if (right > max) max = right` for one
candidate `(value, padding)`. -/
def updCand (mm : MinMax) (c : ℚ × ℚ) : MinMax :=
  let left := c.1 - c.2
  let right := c.1 + c.2
  ⟨if left < mm.lo then left else mm.lo, if right > mm.hi then right else mm.hi⟩

def processPairAxis (mm : MinMax) (v0 v1 v2 v3 pad : ℚ) : MinMax :=
  (axisCandidates v0 v1 v2 v3 pad).foldl updCand mm

/-- The `(previous, current)` segment pairs scanned by `getBounds`:
`processSegment(segments[i])` for `i = 1 .. l-1`, plus `processSegment(first)`
when the path is closed. -/
def segPairs (segs : List Segment) (closed : Bool) : List (Segment × Segment) :=
  match segs with
  | [] => []
  | s0 :: rest =>
    (s0 :: rest).zip rest ++
      (if closed then [((s0 :: rest).getD rest.length default, s0)] else [])

/-- An axis-aligned rectangle, `Rectangle.create(x, y, width, height)`. -/
structure Rect where
  x : ℚ
  y : ℚ
  width : ℚ
  height : ℚ
  deriving DecidableEq, Repr

def Rect.right (r : Rect) : ℚ := r.x + r.width

def Rect.bottom (r : Rect) : ℚ := r.y + r.height

/-- One `processSegment` call of the bounds scan, x axis: the per-axis values
are `v0 = prev.point`, `v1 = prev.point + prev.handleOut`,
`v2 = segment.point + segment.handleIn`, `v3 = segment.point`. -/
def boundsFoldStepX (padX : ℚ) (mm : MinMax) (pr : Segment × Segment) :
    MinMax :=
  processPairAxis mm pr.1.point.x (pr.1.point.x + pr.1.handleOut.x)
    (pr.2.point.x + pr.2.handleIn.x) pr.2.point.x padX

/-- One `processSegment` call of the bounds scan, y axis. -/
def boundsFoldStepY (padY : ℚ) (mm : MinMax) (pr : Segment × Segment) :
    MinMax :=
  processPairAxis mm pr.1.point.y (pr.1.point.y + pr.1.handleOut.y)
    (pr.2.point.y + pr.2.handleIn.y) pr.2.point.y padY

/-- The private `getBounds(that, matrix, strokePadding)` with no matrix:
`null` on an empty path; otherwise min/max per axis over the first anchor,
every anchor, and the padded cubic extrema of every curve (closing curve
included only when closed). -/
def boundsCore (segs : List Segment) (closed : Bool) (padX padY : ℚ) :
    Option Rect :=
  match segs with
  | [] => none
  | first :: _ =>
    let pairs := segPairs segs closed
    let mmx := pairs.foldl (boundsFoldStepX padX) ⟨first.point.x, first.point.x⟩
    let mmy := pairs.foldl (boundsFoldStepY padY) ⟨first.point.y, first.point.y⟩
    some ⟨mmx.lo, mmy.lo, mmx.hi - mmx.lo, mmy.hi - mmy.lo⟩

/-- `getBounds()`: the geometric bounds, no stroke padding. -/
def PathM.getBounds (p : PathM) : Option Rect :=
  boundsCore p.segments p.closed 0 0

/-! ## `getLocationAt` (Path.js lines 635-659) -/

/-- The parameter stored in a returned `CurveLocation`: either
`curve.getParameter(offset - start)` — the arc-length inversion lives in
Curve.js, outside `src/`, so it is kept symbolic — or the literal parameter
`1` of the overshoot fallback. -/
inductive LocParam
  | fromOffset (rem : ℚ)
  | one
  deriving DecidableEq, Repr

/-- A `CurveLocation` as far as the claims inspect it: which curve, and which
parameter expression. -/
structure CurveLocM where
  curveIdx : ℕ
  param : LocParam
  deriving DecidableEq, Repr

/-- The accumulation loop of `getLocationAt`: `start = length;
length += curve.getLength(); if (length >= offset) return ...`. -/
def locScan : List ℚ → ℚ → ℕ → ℚ → Option (ℕ × ℚ)
  | [], _, _, _ => none
  | len :: rest, offset, i, start =>
    let length := start + len
    if offset ≤ length then some (i, offset - start)
    else locScan rest offset (i + 1) length

/-- `getLocationAt(offset, false)` with `Curve.getLength` abstracted as the
list `lengths` (Curve.js is not under `src/`); `this.getLength()` is the sum
of the same lengths (its cache is dropped on every geometry change). -/
def getLocationAt (lengths : List ℚ) (offset : ℚ) : Option CurveLocM :=
  match locScan lengths offset 0 0 with
  | some r => some ⟨r.1, .fromOffset r.2⟩
  | none =>
    if offset ≤ lengths.sum then some ⟨lengths.length - 1, .one⟩
    else none

/-! ## Smoothing (Path.js lines 846-1000) -/

/-- Forward elimination of `getFirstControlPoints`, from the second row on:
carries the previous solution entry and the previous `b`; returns the `x` and
`tmp` rows it produces. -/
def gfcpFwd : ℚ → ℚ → List ℚ → List ℚ × List ℚ
  | _, _, [] => ([], [])
  | xPrev, b, r :: rest =>
    let tmpI := 1 / b
    let bN := (if rest.isEmpty then 2 else 4) - tmpI
    let xI := (r - xPrev) / bN
    let res := gfcpFwd xI bN rest
    (xI :: res.1, tmpI :: res.2)

/-- Back-substitution `x[n - i - 1] -= tmp[n - i] * x[n - i]`:
`backSubst [x_j, ...] [t_j, t_j+1, ...]` returns `[y_j, ...]` with
`y_j = x_j - t_j+1 * y_j+1` and the last entry unchanged. -/
def backSubst : List ℚ → List ℚ → List ℚ
  | [], _ => []
  | [x], _ => [x]
  | x :: y :: xs, ts =>
    let rest := backSubst (y :: xs) ts.tail
    (x - ts.tail.headD 0 * rest.headD 0) :: rest

/-- `getFirstControlPoints(rhs)`: the tridiagonal (Thomas) solve.  `tmp[0]` is
never written nor read in the source; it is padded with `0` here. -/
def getFirstControlPoints (rhs : List ℚ) : List ℚ :=
  match rhs with
  | [] => []
  | r0 :: rest =>
    let x0 := r0 / 2
    let fwd := gfcpFwd x0 2 rest
    backSubst (x0 :: fwd.1) (0 :: fwd.2)

/-- One iteration of the handle-setting loop of `smooth()` (loop variable
`i`, state = segment list and the `handleIn` carried to the next iteration):
`segment = segments[i - overlap]`; set `handleIn` from the carried point; for
`i < n` set `handleOut` from the solved control point and compute the next
carried `handleIn` (reflected interior control point, or the terminal
average). -/
def smoothStep (xs ys : List ℚ) (knots : List Point) (n2 overlap : ℕ)
    (st : List Segment × Option Point) (i : ℕ) :
    List Segment × Option Point :=
  let segs := st.1
  let si := i - overlap
  let seg := segs.getD si default
  let seg :=
    match st.2 with
    | some h => { seg with handleIn := h - seg.point }
    | none => seg
  if i < n2 then
    let seg :=
      { seg with handleOut := (⟨xs.getD i 0, ys.getD i 0⟩ : Point) - seg.point }
    let h : Point :=
      if i < n2 - 1 then
        ⟨2 * (knots.getD (i + 1) default).x - xs.getD (i + 1) 0,
         2 * (knots.getD (i + 1) default).y - ys.getD (i + 1) 0⟩
      else
        ⟨((knots.getD n2 default).x + xs.getD (n2 - 1) 0) / 2,
         ((knots.getD n2 default).y + ys.getD (n2 - 1) 0) / 2⟩
    (segs.set si seg, some h)
  else (segs.set si seg, st.2)

/-- The handle-setting phase of `smooth()`: fold `smoothStep` over
`i = overlap .. n - overlap`, then for closed paths write the final carried
`handleIn` into the first segment. -/
def smoothApply (xs ys : List ℚ) (knots : List Point) (n2 overlap : ℕ)
    (closed : Bool) (segments : List Segment) : List Segment :=
  let loop := (List.range' overlap (n2 + 1 - 2 * overlap)).foldl
    (smoothStep xs ys knots n2 overlap) (segments, (none : Option Point))
  let segs := loop.1
  if closed then
    match loop.2 with
    | some h =>
      let s0 := segs.getD 0 default
      segs.set 0 { s0 with handleIn := h - s0.point }
    | none => segs
  else segs

/-- `smooth()`, translated from Path.js lines 903-1000: early return for
`size <= 2`; knot vector with wrapped overlap for closed paths; one
tridiagonal solve per axis; linear cross-fade of the overlapping solution
regions for closed paths; then the handle-setting loop, which touches only
`handleIn`/`handleOut` of the existing segments. -/
def PathM.smooth (p : PathM) : PathM :=
  let segments := p.segments
  let size := segments.length
  if size ≤ 2 then p
  else
    let overlap := if p.closed then min size 4 else 0
    let n0 := size + (if p.closed then min size overlap * 2 else 0)
    let knots : List Point :=
      if p.closed then
        (segments.drop (size - overlap)).map Segment.point ++
          segments.map Segment.point ++
          (segments.take overlap).map Segment.point
      else segments.map Segment.point
    let n1 := if p.closed then n0 else n0 - 1
    let mkRhs := fun (ks : List ℚ) =>
      (List.range n1).map fun i =>
        if i = 0 then ks.getD 0 0 + 2 * ks.getD 1 0
        else if i = n1 - 1 then 3 * ks.getD (n1 - 1) 0
        else 4 * ks.getD i 0 + 2 * ks.getD (i + 1) 0
    let xs0 := getFirstControlPoints (mkRhs (knots.map Point.x))
    let ys0 := getFirstControlPoints (mkRhs (knots.map Point.y))
    let avg := fun (v : List ℚ) =>
      if p.closed then
        (List.range overlap).foldl
          (fun v i =>
            let j := size + i
            let f1 := (i : ℚ) / (overlap : ℚ)
            let f2 := 1 - f1
            let v := v.set j (v.getD i 0 * f1 + v.getD j 0 * f2)
            let ie := i + overlap
            let je := j + overlap
            v.set je (v.getD ie 0 * f2 + v.getD je 0 * f1))
          v
      else v
    let xs := avg xs0
    let ys := avg ys0
    let n2 := if p.closed then n1 - 1 else n1
    PathM.changedGeometry
      { p with segments := smoothApply xs ys knots n2 overlap p.closed segments }

/-! ## `curveTo` (Path.js lines 1089-1103) -/

/-- The three ways a `curveTo(through, to, t)` call can go.  Modelled from the
spec and IEEE-754 semantics at this single site: with finite inputs and a
denominator `2 * t * (1 - t) = 0`, JavaScript division yields `NaN` for a `0`
numerator component and `±Infinity` otherwise; `Point#isNaN` (Point.js is not
under `src/`) is true iff a component is `NaN`, and the source throws exactly
when `handle.isNaN()`. -/
inductive CurveToOutcome
  | throwsError
  | addsFinite
  | addsNonFinite
  deriving DecidableEq, Repr

/-- `curveTo`: `handle = (through - (1-t)^2 * current - t^2 * to) / (2 * (1-t) * t)`,
then `if (handle.isNaN()) throw ...`, else `quadraticCurveTo(handle, to)`.
When the divisor is `0` and both numerator components are non-zero the handle
is `(±Infinity, ±Infinity)`: `isNaN()` is `false`, no error is thrown, and
`quadraticCurveTo` appends a segment whose control points contain
`Infinity - Infinity = NaN`. -/
def curveToOutcome (current through toPt : Point) (t : ℚ) : CurveToOutcome :=
  let t1 := 1 - t
  let numX := through.x - current.x * (t1 * t1) - toPt.x * (t * t)
  let numY := through.y - current.y * (t1 * t1) - toPt.y * (t * t)
  let d := 2 * t * t1
  if d ≠ 0 then .addsFinite
  else if numX = 0 ∨ numY = 0 then .throwsError
  else .addsNonFinite

/-! ## `arcBy` (Path.js lines 1222-1227) -/

/-- `arcBy(throughVector, toVector)` with explicit fuel.  The source body is
`this.arcBy(current._point.add(throughVector), current._point.add(toVector))`
— a self-call (not `arcTo`), whose only exit is the
`'Use a moveTo() command first'` throw of `getCurrentSegment` on an empty
path (modelled as `some p`, abrupt completion).  `none` means the fuel ran
out with the call still running. -/
def arcByFuel : ℕ → PathM → Point → Point → Option PathM
  | 0, _, _, _ => none
  | fuel + 1, p, throughVector, toVector =>
    match p.segments.getLast? with
    | none => some p
    | some cur =>
      arcByFuel fuel p (cur.point + throughVector) (cur.point + toVector)

/-! ## Stroke bounds (Path.js lines 1401-1503) -/

/-- Modelled from the spec: `Rectangle#include(point)` (Rectangle.js is not
under `src/`): the smallest rectangle containing `r` and the point. -/
def Rect.includePoint (r : Rect) (p : Point) : Rect :=
  let nx := min r.x p.x
  let ny := min r.y p.y
  ⟨nx, ny, max r.right p.x - nx, max r.bottom p.y - ny⟩

/-- Modelled from the spec: `Rectangle#unite(rect)`: the smallest rectangle
containing both. -/
def Rect.unite (r s : Rect) : Rect :=
  let nx := min r.x s.x
  let ny := min r.y s.y
  ⟨nx, ny, max r.right s.right - nx, max r.bottom s.bottom - ny⟩

/-- `r` contains `s` as rectangles. -/
def Rect.containsRect (r s : Rect) : Prop :=
  r.x ≤ s.x ∧ r.y ≤ s.y ∧ s.right ≤ r.right ∧ s.bottom ≤ r.bottom

/-- One bounds-growing step of the join/cap phase of `getStrokeBounds`: every
code path in `addJoin`/`addCap` (Path.js lines 1425-1499) either unions the
current bounds with a point (`add`, i.e. `bounds.include(point)`) or with a
rectangle (`bounds.unite(joinBounds.setCenter(...))`). -/
inductive BoundsOp
  | includePt (p : Point)
  | uniteRect (r : Rect)
  deriving DecidableEq, Repr

def applyBoundsOps (b : Rect) (ops : List BoundsOp) : Rect :=
  ops.foldl
    (fun b op =>
      match op with
      | .includePt p => b.includePoint p
      | .uniteRect r => b.unite r)
    b

/-- `getStrokeBounds()` (no matrix): `getBounds()` when there is no stroke
color or the stroke width is falsy; otherwise the private bounds scan with
pen padding `[radius, radius]` (`getPenPadding(radius)` with no matrix),
grown by the join/cap contributions.  The join/cap points and rectangles are
computed from `Curve.getPoint`/`getNormal` and `Line.intersect`, none of
which are under `src/`; they enter the model as the abstract operation list
`joinCapOps`, which is all the containment claim depends on. -/
def PathM.getStrokeBounds (p : PathM) (hasStrokeColor : Bool) (strokeWidth : ℚ)
    (joinCapOps : List BoundsOp) : Option Rect :=
  if ¬hasStrokeColor ∨ strokeWidth = 0 then p.getBounds
  else
    let radius := strokeWidth / 2
    (boundsCore p.segments p.closed radius radius).map fun b =>
      applyBoundsOps b joinCapOps

/-! ## `arcTo` (Path.js lines 1110-1191), explicit-through-point call

The circumcenter solve is exact rational arithmetic; the transcendental part
(`Math.atan2`/`sin`/`cos`/`sqrt`, all host primitives) is modelled over `ℝ`.
`Math.sqrt` of a negative argument and division by zero are the only NaN
sources feeding the appended segments; both are modelled as `Option` guards,
so `arcAppended? = some l` says exactly that every appended coordinate is a
(finite) real number. -/

namespace ArcToM

/-- The denominator `g` of the circumcenter formula (zero iff the three
points are collinear). -/
def gQ (p1 p2 p3 : Point) : ℚ :=
  p3.x * p1.y - p3.x * p2.y + p1.x * p2.y - p1.x * p3.y + p2.x * p3.y -
    p2.x * p1.y

def fQ (p1 p2 p3 : Point) : ℚ :=
  p3.x * p3.x - p3.x * p2.x - p1.x * p3.x + p1.x * p2.x + p3.y * p3.y -
    p3.y * p2.y - p1.y * p3.y + p1.y * p2.y

/-- `m = g == 0 ? 0 : f / g` — the source's own collinearity guard. -/
def mQ (p1 p2 p3 : Point) : ℚ :=
  if gQ p1 p2 p3 = 0 then 0 else fQ p1 p2 p3 / gQ p1 p2 p3

def eQ (p1 p2 p3 : Point) : ℚ :=
  p1.x * p2.x + p1.y * p2.y - mQ p1 p2 p3 * (p1.x * p2.y - p1.y * p2.x)

def cxQ (p1 p2 p3 : Point) : ℚ :=
  (p1.x + p2.x - mQ p1 p2 p3 * (p2.y - p1.y)) / 2

def cyQ (p1 p2 p3 : Point) : ℚ :=
  (p1.y + p2.y - mQ p1 p2 p3 * (p1.x - p2.x)) / 2

/-- The radicand of `radius = Math.sqrt(cx * cx + cy * cy - e)`. -/
def radSqQ (p1 p2 p3 : Point) : ℚ :=
  cxQ p1 p2 p3 * cxQ p1 p2 p3 + cyQ p1 p2 p3 * cyQ p1 p2 p3 - eQ p1 p2 p3

/-- Modelled: the host primitive `Math.atan2(y, x)`, total with range
`(-π, π]` (and `atan2(0, 0) = 0`), i.e. the argument of the complex number
`x + y·i`. -/
noncomputable def atan2R (y x : ℝ) : ℝ := Complex.arg ⟨x, y⟩

/-- `Math.sqrt(cx² + cy² - e)`: `NaN` (here `none`) on a negative radicand. -/
noncomputable def radius? (p1 p2 p3 : Point) : Option ℝ :=
  if radSqQ p1 p2 p3 < 0 then none
  else some (Real.sqrt ((radSqQ p1 p2 p3 : ℚ) : ℝ))

noncomputable def angle0 (p1 p2 p3 : Point) : ℝ :=
  atan2R ((p1.y : ℝ) - (cyQ p1 p2 p3 : ℚ)) ((p1.x : ℝ) - (cxQ p1 p2 p3 : ℚ))

noncomputable def angleMid (p1 p2 p3 : Point) : ℝ :=
  atan2R ((p2.y : ℝ) - (cyQ p1 p2 p3 : ℚ)) ((p2.x : ℝ) - (cxQ p1 p2 p3 : ℚ))

noncomputable def angleEnd (p1 p2 p3 : Point) : ℝ :=
  atan2R ((p3.y : ℝ) - (cyQ p1 p2 p3 : ℚ)) ((p3.x : ℝ) - (cxQ p1 p2 p3 : ℚ))

/-- `diff = middle - angle`, folded into `(-π, π]`-ish by the two `d90`/`d180`
corrections (`d90` is `Math.PI` and `d180` is `2π` in the source). -/
noncomputable def diffA (p1 p2 p3 : Point) : ℝ :=
  let d := angleMid p1 p2 p3 - angle0 p1 p2 p3
  if d < -Real.pi then d + 2 * Real.pi
  else if d > Real.pi then d - 2 * Real.pi
  else d

/-- `extent -= angle; if (extent <= 0) extent += d180; if (diff < 0) extent -= d180`. -/
noncomputable def extentA (p1 p2 p3 : Point) : ℝ :=
  let e0 := angleEnd p1 p2 p3 - angle0 p1 p2 p3
  let e1 := if e0 ≤ 0 then e0 + 2 * Real.pi else e0
  if diffA p1 p2 p3 < 0 then e1 - 2 * Real.pi else e1

/-- `arcSegs = ext >= d180 ? 4 : Math.ceil(ext * 2 / Math.PI)`. -/
noncomputable def arcSegsZ (p1 p2 p3 : Point) : ℤ :=
  if |extentA p1 p2 p3| ≥ 2 * Real.pi then 4
  else ⌈|extentA p1 p2 p3| * 2 / Real.pi⌉

/-- `inc = Math.min(Math.max(extent, -d180), d180) / arcSegs`: a `0 / 0 = NaN`
when `arcSegs` is zero (which the source reaches when `extent = 0`). -/
noncomputable def inc? (p1 p2 p3 : Point) : Option ℝ :=
  if arcSegsZ p1 p2 p3 = 0 then none
  else some (min (max (extentA p1 p2 p3) (-(2 * Real.pi))) (2 * Real.pi) /
    (arcSegsZ p1 p2 p3 : ℝ))

/-- `z = 4/3 * sin(inc/2) / (1 + cos(inc/2))`: `NaN` on a zero denominator or
a `NaN` `inc`. -/
noncomputable def zCoef? (p1 p2 p3 : Point) : Option ℝ :=
  (inc? p1 p2 p3).bind fun inc =>
    if 1 + Real.cos (inc / 2) = 0 then none
    else some (4 / 3 * Real.sin (inc / 2) / (1 + Real.cos (inc / 2)))

/-- One segment pushed by the `arcTo` loop (iterations `i = 1 .. arcSegs`;
iteration `0` only rewrites the current segment's `handleOut` and pushes
nothing).  Coordinates are real numbers — i.e. finite, never NaN. -/
structure ArcSeg where
  ptX : ℝ
  ptY : ℝ
  hInX : ℝ
  hInY : ℝ
  hOut : Option (ℝ × ℝ)

/-- The list of segments `arcTo` appends via `this._add(segments)`:
`some l` iff no appended coordinate went through a NaN-producing operation.
When `arcSegs ≤ 0` the loop pushes nothing, so the appended list is empty no
matter what `inc`/`z` evaluated to. -/
noncomputable def arcAppended? (p1 p2 p3 : Point) : Option (List ArcSeg) :=
  let n := arcSegsZ p1 p2 p3
  if n ≤ 0 then some []
  else
    (radius? p1 p2 p3).bind fun r =>
      (inc? p1 p2 p3).bind fun inc =>
        (zCoef? p1 p2 p3).bind fun z =>
          some ((List.range n.toNat).map fun (j : ℕ) =>
            let θ := angle0 p1 p2 p3 + ((j : ℝ) + 1) * inc
            let relx := Real.cos θ
            let rely := Real.sin θ
            let px := (cxQ p1 p2 p3 : ℚ) + relx * r
            let py := (cyQ p1 p2 p3 : ℚ) + rely * r
            { ptX := px, ptY := py,
              hInX := ((cxQ p1 p2 p3 : ℚ) : ℝ) + (relx + z * rely) * r - px,
              hInY := ((cyQ p1 p2 p3 : ℚ) : ℝ) + (rely - z * relx) * r - py,
              hOut :=
                if (j : ℤ) + 1 = n then none
                else some (((cxQ p1 p2 p3 : ℚ) : ℝ) + (relx - z * rely) * r - px,
                  ((cyQ p1 p2 p3 : ℚ) : ℝ) + (rely + z * relx) * r - py) })

end ArcToM

/-! ## Concrete paths used in the claim checks -/

/-- A path holding one attached segment at the origin, built through `_add`
exactly as `new Path([point])` would. -/
def oneSegPath : PathM := (emptyPath._add [mkSegment ⟨0, 0⟩] none).1

/-- `oneSegPath` closed: `curveCount 1 true = 1`, the self-loop closing curve. -/
def closedOneSegPath : PathM := oneSegPath.setClosed true

/-- A one-segment open path whose curves view has been requested
(`_curves = []`, in sync: `curveCount 1 false = 0`). -/
def cachedOneSegPath : PathM := (oneSegPath.getCurves).1

/-- The 100×100 square of the spec's concrete scenario:
`moveTo(0,0); lineTo(100,0); lineTo(100,100); lineTo(0,100); closePath()`. -/
def squarePath : PathM :=
  ((((emptyPath.moveTo ⟨0, 0⟩).lineTo ⟨100, 0⟩).lineTo
    ⟨100, 100⟩).lineTo ⟨0, 100⟩).closePath

/-- The four segments `squarePath` ends up holding. -/
def sq0 : Segment := ⟨⟨0, 0⟩, ⟨0, 0⟩, ⟨0, 0⟩, some (), some 0, false⟩

def sq1 : Segment := ⟨⟨100, 0⟩, ⟨0, 0⟩, ⟨0, 0⟩, some (), some 1, false⟩

def sq2 : Segment := ⟨⟨100, 100⟩, ⟨0, 0⟩, ⟨0, 0⟩, some (), some 2, false⟩

def sq3 : Segment := ⟨⟨0, 100⟩, ⟨0, 0⟩, ⟨0, 0⟩, some (), some 3, false⟩

/-- Cumulative length of the first `i` curves (the value of the running
`length` accumulator of `getLocationAt` after `i` iterations). -/
def prefixLen (lengths : List ℚ) (i : ℕ) : ℚ := (lengths.take i).sum

/-- The fields of a segment other than its two handles: anchor point, `_path`
back-reference, `_index` and selection state. -/
def segSkeleton (s : Segment) : Point × Option Unit × Option ℕ × Bool :=
  (s.point, s.path, s.index, s.selectionState)

/-! ## Helper lemmas -/

theorem swapHandles_swapHandles (s : Segment) : swapHandles (swapHandles s) = s := rfl

theorem resizeCurves_length (l : List CurveM) (n : ℕ) :
    (resizeCurves l n).length = n := by
  simp [resizeCurves]
  omega

/-! ## The claims -/

/-- C9: for every path, calling `reverse()` twice restores the original
segment order, every segment's `handleIn`/`handleOut` vectors, and the cached
clockwise flag, exactly as they were before the first call (the double
application of `PathM.reverse` is the identity on the whole path state). -/
theorem C9_reverse_reverse_id (p : PathM) : p.reverse.reverse = p := by
  obtain ⟨segs, closed, curves, sel, cw⟩ := p
  simp only [PathM.reverse, List.map_reverse, List.reverse_reverse, List.map_map]
  congr 1
  · have h : swapHandles ∘ swapHandles = id := funext fun s => swapHandles_swapHandles s
    rw [h, List.map_id]
  · cases cw <;> simp

/-- C1 (code bug evidence): the segment returned by
`removeSegment(0)`/`removeSegments(0, 1)` on a one-segment path still carries
`_path = some ()` and `_index = some 0` — the source line
`removed._index = removed._path = undefined` assigns to the returned array
object instead of the removed segments, so removed segments are never
detached, contradicting the claimed invariant that a removed segment has a
null `_path` and a cleared `_index`. -/
theorem C1_removed_segment_keeps_refs :
    ((oneSegPath.removeSegments 0 (some 1)).2.map Segment.path = [some ()]) ∧
    ((oneSegPath.removeSegments 0 (some 1)).2.map Segment.index = [some 0]) :=
  ⟨rfl, rfl⟩

/-- C2 (counterexample): a *closed* path with exactly one segment has a curve
list of length 1 (the self-loop closing curve built by `getCurves`), not 0 as
the claim's "empty ... for closed paths with at most one segment" clause
demands. -/
theorem C2_closed_singleton_has_one_curve :
    (closedOneSegPath.getCurves).2.length = 1 := rfl

/-- C2 (amended): for every path whose cached curve list (if present) is in
sync, the curve list returned by `getCurves` has length `segments.length`
when closed and `segments.length - 1` (clamped at 0) when open — so it is
empty for open paths with fewer than 2 segments and for a closed empty path,
while a closed one-segment path has exactly one curve — and `setClosed`
resizes a cached curve list to the same formula. -/
theorem C2_curve_count_formula (p : PathM) (b : Bool)
    (hc : ∀ cs, p.curves = some cs →
      cs.length = curveCount p.segments.length p.closed) :
    (p.getCurves).2.length = curveCount p.segments.length p.closed ∧
    ∀ cs, (p.setClosed b).curves = some cs →
      cs.length = curveCount p.segments.length b := by
  constructor
  · unfold PathM.getCurves
    cases hp : p.curves with
    | some cs => exact hc cs hp
    | none => simp [PathM.getCurvesBuild]
  · intro cs hcs
    unfold PathM.setClosed at hcs
    by_cases he : p.closed = b
    · rw [if_pos he] at hcs
      rw [← he]
      exact hc cs hcs
    · rw [if_neg he] at hcs
      cases hp : p.curves with
      | none =>
        rw [hp] at hcs
        simp [PathM.changedGeometry] at hcs
      | some cs0 =>
        rw [hp] at hcs
        simp only [PathM.changedGeometry] at hcs
        have hcs2 := Option.some.inj hcs
        rw [← hcs2]
        cases b with
        | false => simp [resizeCurves_length]
        | true => simp [List.length_set, resizeCurves_length]

/-- Witness for `C2_curve_count_formula`: a one-segment open path whose curve
cache `[]` is in sync; closing it yields a one-curve cache. -/
theorem C2_curve_count_formula_witness :
    (∀ cs, cachedOneSegPath.curves = some cs →
      cs.length = curveCount cachedOneSegPath.segments.length
        cachedOneSegPath.closed) ∧
    ((cachedOneSegPath.getCurves).2.length =
      curveCount cachedOneSegPath.segments.length cachedOneSegPath.closed ∧
    ∀ cs, (cachedOneSegPath.setClosed true).curves = some cs →
      cs.length = curveCount cachedOneSegPath.segments.length true) := by
  have hc : ∀ cs, cachedOneSegPath.curves = some cs →
      cs.length = curveCount cachedOneSegPath.segments.length
        cachedOneSegPath.closed := by
    intro cs h
    have h2 : some [] = some cs := h
    cases h2
    rfl
  exact ⟨hc, C2_curve_count_formula cachedOneSegPath true hc⟩

/-- C10 (code bug evidence): on any path with at least one segment,
`arcBy(throughVector, toVector)` never terminates: the body delegates to
`this.arcBy` itself (instead of `arcTo`), and the only exit — the
`'Use a moveTo() command first'` throw — is unreachable once a segment
exists, so the fuelled evaluation runs out of fuel for every fuel value. -/
theorem C10_arcBy_never_terminates (fuel : ℕ) (p : PathM) (tv av : Point)
    (h : p.segments ≠ []) : arcByFuel fuel p tv av = none := by
  induction fuel generalizing tv av with
  | zero => rfl
  | succ n ih =>
    unfold arcByFuel
    cases hl : p.segments.getLast? with
    | none => exact absurd (List.getLast?_eq_none_iff.mp hl) h
    | some cur => exact ih _ _

/-- Witness for `C10_arcBy_never_terminates` at a concrete one-segment path
and 100 units of fuel. -/
theorem C10_arcBy_never_terminates_witness :
    oneSegPath.segments ≠ [] ∧
    arcByFuel 100 oneSegPath ⟨1, 0⟩ ⟨2, 0⟩ = none := by
  have h : oneSegPath.segments ≠ [] := by
    intro hcon
    exact List.noConfusion hcon
  exact ⟨h, C10_arcBy_never_terminates 100 oneSegPath ⟨1, 0⟩ ⟨2, 0⟩ h⟩

/-- C6 (code bug evidence): `curveTo(through = (1,1), to = (2,2),
parameter = 0)` from current point `(0,0)` divides the non-zero numerator
`(1, 1)` by `2 * t * (1 - t) = 0`, giving an `(Infinity, Infinity)` handle;
`handle.isNaN()` is then `false`, so no usage error is thrown and
`quadraticCurveTo` appends a segment with non-finite control-point
coordinates — contradicting the claim that parameter 0/1 always throws and
never adds non-finite geometry. -/
theorem C6_curveTo_param_zero_not_signalled :
    curveToOutcome ⟨0, 0⟩ ⟨1, 1⟩ ⟨2, 2⟩ 0 = CurveToOutcome.addsNonFinite := by
  norm_num [curveToOutcome]

theorem prefixLen_zero (lengths : List ℚ) : prefixLen lengths 0 = 0 := rfl

theorem prefixLen_cons (len : ℚ) (rest : List ℚ) (k : ℕ) :
    prefixLen (len :: rest) (k + 1) = len + prefixLen rest k := by
  simp [prefixLen]

/-- `locScan` hits the first index whose cumulative length reaches the
offset. -/
theorem locScan_eq_some (lengths : List ℚ) (offset : ℚ) :
    ∀ (acc : ℚ) (i0 j : ℕ), j < lengths.length →
      (∀ k < j, ¬ offset ≤ acc + prefixLen lengths (k + 1)) →
      offset ≤ acc + prefixLen lengths (j + 1) →
      locScan lengths offset i0 acc =
        some (i0 + j, offset - (acc + prefixLen lengths j)) := by
  induction lengths with
  | nil => intro acc i0 j hj; simp at hj
  | cons len rest ih =>
    intro acc i0 j hj hmin hhit
    unfold locScan
    by_cases h : offset ≤ acc + len
    · have hj0 : j = 0 := by
        by_contra hne
        exact hmin 0 (Nat.pos_of_ne_zero hne)
          (by simpa [prefixLen_cons, prefixLen_zero] using h)
      subst hj0
      simp [h, prefixLen_zero]
    · have hj0 : j ≠ 0 := by
        intro h0
        subst h0
        exact h (by simpa [prefixLen_cons, prefixLen_zero] using hhit)
      obtain ⟨j', rfl⟩ : ∃ j', j = j' + 1 := ⟨j - 1, by omega⟩
      simp only [if_neg h]
      have hrec := ih (acc + len) (i0 + 1) j' (by simpa using hj)
        (fun k hk => by
          have := hmin (k + 1) (by omega)
          simpa [prefixLen_cons, add_assoc] using this)
        (by simpa [prefixLen_cons, add_assoc] using hhit)
      rw [hrec]
      have h1 : i0 + 1 + j' = i0 + (j' + 1) := by omega
      have h2 : acc + len + prefixLen rest j' =
          acc + prefixLen (len :: rest) (j' + 1) := by
        rw [prefixLen_cons]
        ring
      rw [h1, h2]

/-- `locScan` misses iff no cumulative length reaches the offset. -/
theorem locScan_eq_none (lengths : List ℚ) (offset : ℚ) :
    ∀ (acc : ℚ) (i0 : ℕ),
      (∀ j < lengths.length, ¬ offset ≤ acc + prefixLen lengths (j + 1)) →
      locScan lengths offset i0 acc = none := by
  induction lengths with
  | nil => intro acc i0 _; rfl
  | cons len rest ih =>
    intro acc i0 hmiss
    unfold locScan
    have h0 : ¬ offset ≤ acc + len := by
      have := hmiss 0 (by simp)
      simpa [prefixLen_cons, prefixLen_zero] using this
    simp only [if_neg h0]
    exact ih (acc + len) (i0 + 1) fun j hj => by
      have := hmiss (j + 1) (by simpa using Nat.succ_lt_succ hj)
      simpa [prefixLen_cons, add_assoc] using this

theorem sum_drop_nonneg (lengths : List ℚ) (k : ℕ)
    (hpos : ∀ l ∈ lengths, 0 ≤ l) : 0 ≤ (lengths.drop k).sum := by
  apply List.sum_nonneg
  intro a ha
  exact hpos a (List.mem_of_mem_drop ha)

theorem prefixLen_le_sum (lengths : List ℚ) (k : ℕ)
    (hpos : ∀ l ∈ lengths, 0 ≤ l) : prefixLen lengths k ≤ lengths.sum := by
  have hsplit : prefixLen lengths k + (lengths.drop k).sum = lengths.sum := by
    rw [prefixLen, ← List.sum_append, List.take_append_drop]
  have := sum_drop_nonneg lengths k hpos
  linarith

/-- C3: for every path with at least one curve and every non-negative offset
(`isParameter = false`), `getLocationAt` returns a location on the first
curve whose cumulative length reaches the offset, at the parameter
`curve.getParameter(offset - lengthBefore)` (the arc-length inversion); if
the scan falls short but the offset does not exceed the path's total length
it returns the last curve at parameter 1; and if the offset exceeds the
total length it returns `none`.  Curve lengths are non-negative arc lengths
supplied by `Curve.getLength`. -/
theorem C3_getLocationAt_spec (lengths : List ℚ) (offset : ℚ)
    (hne : lengths ≠ []) (_h0 : 0 ≤ offset)
    (hpos : ∀ l ∈ lengths, 0 ≤ l) :
    (∀ j < lengths.length, (∀ k < j, ¬ offset ≤ prefixLen lengths (k + 1)) →
      offset ≤ prefixLen lengths (j + 1) →
      getLocationAt lengths offset =
        some ⟨j, LocParam.fromOffset (offset - prefixLen lengths j)⟩) ∧
    ((∀ j < lengths.length, ¬ offset ≤ prefixLen lengths (j + 1)) →
      offset ≤ lengths.sum →
      getLocationAt lengths offset =
        some ⟨lengths.length - 1, LocParam.one⟩) ∧
    (lengths.sum < offset → getLocationAt lengths offset = none) := by
  refine ⟨?_, ?_, ?_⟩
  · intro j hj hmin hhit
    unfold getLocationAt
    rw [locScan_eq_some lengths offset 0 0 j hj
      (by simpa using hmin) (by simpa using hhit)]
    simp
  · intro hmiss hle
    have hlen : 0 < lengths.length := List.length_pos.mpr hne
    have := hmiss (lengths.length - 1) (by omega)
    rw [show lengths.length - 1 + 1 = lengths.length by omega] at this
    rw [prefixLen, List.take_length] at this
    exact absurd hle this
  · intro hlt
    unfold getLocationAt
    rw [locScan_eq_none lengths offset 0 0 fun j hj => by
      have h1 : prefixLen lengths (j + 1) ≤ lengths.sum :=
        prefixLen_le_sum lengths (j + 1) hpos
      intro hc
      rw [zero_add] at hc
      linarith]
    simp [not_le.mpr hlt]

/-- Witness for `C3_getLocationAt_spec` on two zero-length curves at
offset `0`. -/
theorem C3_getLocationAt_spec_witness :
    ([0, 0] : List ℚ) ≠ [] ∧ (0 : ℚ) ≤ 0 ∧ (∀ l ∈ ([0, 0] : List ℚ), 0 ≤ l) ∧
    ((∀ j < ([0, 0] : List ℚ).length,
        (∀ k < j, ¬ (0 : ℚ) ≤ prefixLen [0, 0] (k + 1)) →
        (0 : ℚ) ≤ prefixLen [0, 0] (j + 1) →
        getLocationAt [0, 0] 0 =
          some ⟨j, LocParam.fromOffset (0 - prefixLen [0, 0] j)⟩) ∧
      ((∀ j < ([0, 0] : List ℚ).length, ¬ (0 : ℚ) ≤ prefixLen [0, 0] (j + 1)) →
        (0 : ℚ) ≤ ([0, 0] : List ℚ).sum →
        getLocationAt [0, 0] 0 =
          some ⟨([0, 0] : List ℚ).length - 1, LocParam.one⟩) ∧
      (([0, 0] : List ℚ).sum < 0 → getLocationAt [0, 0] 0 = none)) := by
  refine ⟨by simp, le_refl 0, by simp, ?_⟩
  exact C3_getLocationAt_spec [0, 0] 0 (by simp) (le_refl 0) (by simp)

/-- Setting a list element to a value with the same image under `f` does not
change the mapped list. -/
theorem map_set_skel {α β : Type} [Inhabited α] (f : α → β) :
    ∀ (l : List α) (i : ℕ) (a : α),
      (i < l.length → f a = f (l.getD i default)) →
      (l.set i a).map f = l.map f := by
  intro l
  induction l with
  | nil => intro i a _; rfl
  | cons x xs ih =>
    intro i a h
    cases i with
    | zero =>
      have hx : f a = f x := h (by simp)
      simp [hx]
    | succ n =>
      simp only [List.set_cons_succ, List.map_cons]
      rw [ih n a fun hn => by simpa using h (by simpa using Nat.succ_lt_succ hn)]

theorem smoothStep_map_skel (xs ys : List ℚ) (knots : List Point)
    (n2 overlap : ℕ) (st : List Segment × Option Point) (i : ℕ) :
    ((smoothStep xs ys knots n2 overlap st i).1).map segSkeleton =
      st.1.map segSkeleton := by
  obtain ⟨l0, h0⟩ := st
  cases h0 with
  | none =>
    by_cases hi : i < n2
    · simp only [smoothStep, if_pos hi]
      exact map_set_skel segSkeleton l0 _ _ fun _ => rfl
    · simp only [smoothStep, if_neg hi]
      exact map_set_skel segSkeleton l0 _ _ fun _ => rfl
  | some hpt =>
    by_cases hi : i < n2
    · simp only [smoothStep, if_pos hi]
      exact map_set_skel segSkeleton l0 _ _ fun _ => rfl
    · simp only [smoothStep, if_neg hi]
      exact map_set_skel segSkeleton l0 _ _ fun _ => rfl

theorem foldl_smoothStep_map_skel (xs ys : List ℚ) (knots : List Point)
    (n2 overlap : ℕ) :
    ∀ (idxs : List ℕ) (st : List Segment × Option Point),
      ((idxs.foldl (smoothStep xs ys knots n2 overlap) st).1).map segSkeleton =
        st.1.map segSkeleton := by
  intro idxs
  induction idxs with
  | nil => intro st; rfl
  | cons i rest ih =>
    intro st
    rw [List.foldl_cons, ih, smoothStep_map_skel]

theorem smoothApply_map_skel (xs ys : List ℚ) (knots : List Point)
    (n2 overlap : ℕ) (closed : Bool) (segments : List Segment) :
    (smoothApply xs ys knots n2 overlap closed segments).map segSkeleton =
      segments.map segSkeleton := by
  unfold smoothApply
  have hfold := foldl_smoothStep_map_skel xs ys knots n2 overlap
    (List.range' overlap (n2 + 1 - 2 * overlap)) (segments, none)
  cases closed with
  | false => simpa using hfold
  | true =>
    cases hsnd : ((List.range' overlap (n2 + 1 - 2 * overlap)).foldl
        (smoothStep xs ys knots n2 overlap) (segments, none)).2 with
    | none => simpa [hsnd] using hfold
    | some hpt =>
      simp only [hsnd, if_true]
      refine Eq.trans (map_set_skel segSkeleton _ 0 _ fun _ => rfl) ?_
      simpa using hfold

/-- C7: for every path, `smooth()` leaves the number of segments, every
segment's anchor point, and every non-handle field (`_path`, `_index`,
selection state) unchanged — only the `handleIn`/`handleOut` vectors are
rewritten — and on a path with at most 2 segments `smooth()` changes nothing
at all, handles included. -/
theorem C7_smooth_preserves_anchors (p : PathM) :
    (p.smooth).segments.length = p.segments.length ∧
    (p.smooth).segments.map segSkeleton = p.segments.map segSkeleton ∧
    (p.segments.length ≤ 2 → p.smooth = p) := by
  have hmap : (p.smooth).segments.map segSkeleton =
      p.segments.map segSkeleton := by
    by_cases hsz : p.segments.length ≤ 2
    · have hid : p.smooth = p := by
        unfold PathM.smooth
        simp [hsz]
      rw [hid]
    · simp only [PathM.smooth, if_neg hsz, PathM.changedGeometry]
      exact smoothApply_map_skel _ _ _ _ _ _ _
  refine ⟨?_, hmap, ?_⟩
  · have hlen := congrArg List.length hmap
    simpa using hlen
  · intro hle
    unfold PathM.smooth
    simp [hle]

/-- Witness for `C7_smooth_preserves_anchors`: the inner small-path
implication, applied to the concrete one-segment path. -/
theorem C7_smooth_preserves_anchors_witness :
    oneSegPath.segments.length ≤ 2 ∧ oneSegPath.smooth = oneSegPath :=
  ⟨by decide, (C7_smooth_preserves_anchors oneSegPath).2.2 (by decide)⟩

theorem updCand_lo (mm : MinMax) (v p : ℚ) :
    (updCand mm (v, p)).lo = min mm.lo (v - p) := by
  simp only [updCand, min_def]
  split_ifs <;> first | rfl | linarith

theorem updCand_hi (mm : MinMax) (v p : ℚ) :
    (updCand mm (v, p)).hi = max mm.hi (v + p) := by
  simp only [updCand, max_def]
  split_ifs <;> first | rfl | linarith

/-- Folding padded candidates against unpadded ones keeps the padded min/max
at least as wide. -/
theorem foldl_updCand_mono (cf : ℚ → ℚ) (pad : ℚ) (hpad : 0 ≤ pad) :
    ∀ (ts : List ℚ) (mm1 mm2 : MinMax),
      mm1.lo ≤ mm2.lo → mm2.hi ≤ mm1.hi →
      ((ts.map fun t => (cf t, pad)).foldl updCand mm1).lo ≤
          ((ts.map fun t => (cf t, 0)).foldl updCand mm2).lo ∧
        ((ts.map fun t => (cf t, 0)).foldl updCand mm2).hi ≤
          ((ts.map fun t => (cf t, pad)).foldl updCand mm1).hi := by
  intro ts
  induction ts with
  | nil => intro mm1 mm2 h1 h2; exact ⟨h1, h2⟩
  | cons t ts ih =>
    intro mm1 mm2 h1 h2
    simp only [List.map_cons, List.foldl_cons]
    apply ih
    · rw [updCand_lo, updCand_lo]
      exact min_le_min h1 (by linarith)
    · rw [updCand_hi, updCand_hi]
      exact max_le_max h2 (by linarith)

theorem processPairAxis_mono (v0 v1 v2 v3 pad : ℚ) (hpad : 0 ≤ pad)
    (mm1 mm2 : MinMax) (h1 : mm1.lo ≤ mm2.lo) (h2 : mm2.hi ≤ mm1.hi) :
    (processPairAxis mm1 v0 v1 v2 v3 pad).lo ≤
        (processPairAxis mm2 v0 v1 v2 v3 0).lo ∧
      (processPairAxis mm2 v0 v1 v2 v3 0).hi ≤
        (processPairAxis mm1 v0 v1 v2 v3 pad).hi := by
  unfold processPairAxis axisCandidates
  simp only [List.foldl_cons]
  apply foldl_updCand_mono _ pad hpad
  · rw [updCand_lo, updCand_lo]
    exact min_le_min h1 (by linarith)
  · rw [updCand_hi, updCand_hi]
    exact max_le_max h2 (by linarith)

theorem foldl_pairs_mono (pad : ℚ) (hpad : 0 ≤ pad)
    (g0 g1 g2 g3 : Segment × Segment → ℚ) :
    ∀ (pairs : List (Segment × Segment)) (mm1 mm2 : MinMax),
      mm1.lo ≤ mm2.lo → mm2.hi ≤ mm1.hi →
      ((pairs.foldl
          (fun mm pr => processPairAxis mm (g0 pr) (g1 pr) (g2 pr) (g3 pr) pad)
          mm1).lo ≤
        (pairs.foldl
          (fun mm pr => processPairAxis mm (g0 pr) (g1 pr) (g2 pr) (g3 pr) 0)
          mm2).lo) ∧
      ((pairs.foldl
          (fun mm pr => processPairAxis mm (g0 pr) (g1 pr) (g2 pr) (g3 pr) 0)
          mm2).hi ≤
        (pairs.foldl
          (fun mm pr => processPairAxis mm (g0 pr) (g1 pr) (g2 pr) (g3 pr) pad)
          mm1).hi) := by
  intro pairs
  induction pairs with
  | nil => intro mm1 mm2 h1 h2; exact ⟨h1, h2⟩
  | cons pr prs ih =>
    intro mm1 mm2 h1 h2
    simp only [List.foldl_cons]
    have hstep := processPairAxis_mono (g0 pr) (g1 pr) (g2 pr) (g3 pr) pad hpad
      mm1 mm2 h1 h2
    exact ih _ _ hstep.1 hstep.2

/-- The padded bounds scan yields a rectangle containing the unpadded one. -/
theorem boundsCore_pad_contains (segs : List Segment) (closed : Bool)
    (padX padY : ℚ) (hx : 0 ≤ padX) (hy : 0 ≤ padY) (b0 bp : Rect)
    (h0 : boundsCore segs closed 0 0 = some b0)
    (hp : boundsCore segs closed padX padY = some bp) :
    bp.containsRect b0 := by
  cases segs with
  | nil => simp [boundsCore] at h0
  | cons first rest =>
    simp only [boundsCore] at h0 hp
    have h0' := Option.some.inj h0
    have hp' := Option.some.inj hp
    subst h0' hp'
    have hxm := foldl_pairs_mono padX hx
      (fun pr => pr.1.point.x) (fun pr => pr.1.point.x + pr.1.handleOut.x)
      (fun pr => pr.2.point.x + pr.2.handleIn.x) (fun pr => pr.2.point.x)
      (segPairs (first :: rest) closed)
      ⟨first.point.x, first.point.x⟩ ⟨first.point.x, first.point.x⟩
      le_rfl le_rfl
    have hym := foldl_pairs_mono padY hy
      (fun pr => pr.1.point.y) (fun pr => pr.1.point.y + pr.1.handleOut.y)
      (fun pr => pr.2.point.y + pr.2.handleIn.y) (fun pr => pr.2.point.y)
      (segPairs (first :: rest) closed)
      ⟨first.point.y, first.point.y⟩ ⟨first.point.y, first.point.y⟩
      le_rfl le_rfl
    have hxm1 : ((segPairs (first :: rest) closed).foldl (boundsFoldStepX padX)
        ⟨first.point.x, first.point.x⟩).lo ≤
        ((segPairs (first :: rest) closed).foldl (boundsFoldStepX 0)
        ⟨first.point.x, first.point.x⟩).lo := hxm.1
    have hxm2 : ((segPairs (first :: rest) closed).foldl (boundsFoldStepX 0)
        ⟨first.point.x, first.point.x⟩).hi ≤
        ((segPairs (first :: rest) closed).foldl (boundsFoldStepX padX)
        ⟨first.point.x, first.point.x⟩).hi := hxm.2
    have hym1 : ((segPairs (first :: rest) closed).foldl (boundsFoldStepY padY)
        ⟨first.point.y, first.point.y⟩).lo ≤
        ((segPairs (first :: rest) closed).foldl (boundsFoldStepY 0)
        ⟨first.point.y, first.point.y⟩).lo := hym.1
    have hym2 : ((segPairs (first :: rest) closed).foldl (boundsFoldStepY 0)
        ⟨first.point.y, first.point.y⟩).hi ≤
        ((segPairs (first :: rest) closed).foldl (boundsFoldStepY padY)
        ⟨first.point.y, first.point.y⟩).hi := hym.2
    refine ⟨?_, ?_, ?_, ?_⟩ <;>
      simp only [Rect.right, Rect.bottom] <;>
      [exact hxm1; exact hym1; linarith [hxm2]; linarith [hym2]]

theorem containsRect_trans (a b c : Rect) (h1 : a.containsRect b)
    (h2 : b.containsRect c) : a.containsRect c := by
  obtain ⟨h11, h12, h13, h14⟩ := h1
  obtain ⟨h21, h22, h23, h24⟩ := h2
  exact ⟨by linarith, by linarith, by linarith, by linarith⟩

theorem includePoint_contains (r : Rect) (p : Point) :
    (r.includePoint p).containsRect r := by
  unfold Rect.includePoint Rect.containsRect
  simp only [Rect.right, Rect.bottom]
  refine ⟨min_le_left _ _, min_le_left _ _, ?_, ?_⟩ <;>
    · rw [add_sub_cancel]
      refine le_trans ?_ (le_max_left _ _)
      simp [Rect.right, Rect.bottom]

theorem unite_contains (r s : Rect) : (r.unite s).containsRect r := by
  unfold Rect.unite Rect.containsRect
  simp only [Rect.right, Rect.bottom]
  refine ⟨min_le_left _ _, min_le_left _ _, ?_, ?_⟩ <;>
    · rw [add_sub_cancel]
      refine le_trans ?_ (le_max_left _ _)
      simp [Rect.right, Rect.bottom]

theorem applyBoundsOps_contains (ops : List BoundsOp) :
    ∀ b : Rect, (applyBoundsOps b ops).containsRect b := by
  induction ops with
  | nil =>
    intro b
    exact ⟨le_rfl, le_rfl, le_rfl, le_rfl⟩
  | cons op rest ih =>
    intro b
    have hstep : ∀ b : Rect,
        (match op with
          | BoundsOp.includePt p => b.includePoint p
          | BoundsOp.uniteRect r => b.unite r).containsRect b := by
      intro b
      cases op with
      | includePt p => exact includePoint_contains b p
      | uniteRect r => exact unite_contains b r
    exact containsRect_trans _ _ _ (ih _) (hstep b)

/-- C8: for every non-empty path with a stroke color and positive stroke
width, `getStrokeBounds()` returns a rectangle that contains the rectangle
returned by `getBounds()` (for any join/cap contributions, which only grow
the bounds). -/
theorem C8_strokeBounds_contain_bounds (p : PathM) (strokeWidth : ℚ)
    (joinCapOps : List BoundsOp) (hne : p.segments ≠ [])
    (hw : 0 < strokeWidth) :
    ∃ b sb, p.getBounds = some b ∧
      p.getStrokeBounds true strokeWidth joinCapOps = some sb ∧
      sb.containsRect b := by
  obtain ⟨first, rest, hseg⟩ : ∃ a l, p.segments = a :: l := by
    cases hs : p.segments with
    | nil => exact absurd hs hne
    | cons a l => exact ⟨a, l, rfl⟩
  have hb0 : ∃ b0, boundsCore p.segments p.closed 0 0 = some b0 := by
    rw [hseg]; exact ⟨_, rfl⟩
  have hbp : ∃ bp, boundsCore p.segments p.closed (strokeWidth / 2)
      (strokeWidth / 2) = some bp := by
    rw [hseg]; exact ⟨_, rfl⟩
  obtain ⟨b0, hb0⟩ := hb0
  obtain ⟨bp, hbp⟩ := hbp
  have hpad : (0 : ℚ) ≤ strokeWidth / 2 := le_of_lt (half_pos hw)
  refine ⟨b0, applyBoundsOps bp joinCapOps, hb0, ?_, ?_⟩
  · unfold PathM.getStrokeBounds
    rw [if_neg ?hcond]
    case hcond =>
      rintro (h | h)
      · exact h rfl
      · exact absurd h (ne_of_gt hw)
    show (boundsCore p.segments p.closed (strokeWidth / 2)
        (strokeWidth / 2)).map (fun b => applyBoundsOps b joinCapOps) =
      some (applyBoundsOps bp joinCapOps)
    rw [hbp]
    rfl
  · exact containsRect_trans _ _ _ (applyBoundsOps_contains joinCapOps bp)
      (boundsCore_pad_contains p.segments p.closed (strokeWidth / 2)
        (strokeWidth / 2) hpad hpad b0 bp hb0 hbp)

/-- Witness for `C8_strokeBounds_contain_bounds`: the one-segment path with
stroke width 1 and no join/cap contributions. -/
theorem C8_strokeBounds_contain_bounds_witness :
    oneSegPath.segments ≠ [] ∧ (0 : ℚ) < 1 ∧
    (∃ b sb, oneSegPath.getBounds = some b ∧
      oneSegPath.getStrokeBounds true 1 [] = some sb ∧
      sb.containsRect b) :=
  ⟨by decide, one_pos,
    C8_strokeBounds_contain_bounds oneSegPath 1 [] (by decide) one_pos⟩

/-- `sqrtQ` is exact on squares of rationals. -/
theorem sqrtQ_mul_self (b : ℚ) : sqrtQ (b * b) = |b| := by
  unfold sqrtQ
  rcases eq_or_ne b 0 with hb | hb
  · subst hb
    norm_num
  · have hpos : 0 < b * b := mul_self_pos.mpr hb
    rw [if_neg (not_le.mpr hpos)]
    have hnum : (b * b).num.toNat = b.num.natAbs * b.num.natAbs := by
      rw [Rat.mul_self_num, ← Int.natAbs_mul_self, Int.toNat_natCast]
    rw [hnum, Rat.mul_self_den, Nat.sqrt_eq, Nat.sqrt_eq]
    have hcast : ((b.num.natAbs : ℚ)) = |((b.num : ℤ) : ℚ)| := by
      rw [Int.cast_natAbs, Int.cast_abs]
    rw [hcast]
    have hden : ((b.den : ℚ)) = |((b.den : ℚ))| :=
      (abs_of_pos (by exact_mod_cast b.den_pos)).symm
    rw [hden, ← abs_div, Rat.num_div_den]

theorem sqrtQ_10000 : sqrtQ (10000 : ℚ) = 100 := by
  have h : (10000 : ℚ) = 100 * 100 := by norm_num
  rw [h, sqrtQ_mul_self]
  norm_num

theorem sqrtQ_40000 : sqrtQ (40000 : ℚ) = 200 := by
  have h : (40000 : ℚ) = 200 * 200 := by norm_num
  rw [h, sqrtQ_mul_self]
  norm_num

/-- `squarePath` evaluated: four zero-handle attached segments, closed, with
no curve cache and the clockwise cache cleared by the last geometry change. -/
theorem squarePath_segments_eval :
    squarePath.segments = [sq0, sq1, sq2, sq3] := rfl

theorem squarePath_closed_eval : squarePath.closed = true := rfl

theorem squarePath_clockwise_eval : squarePath.clockwise = none := rfl

theorem goodRoots_0_to_100 : goodRoots 0 0 100 100 = [] := by
  norm_num [goodRoots, sqrtQ_40000, tolTMin, tolTMax]

theorem goodRoots_100_to_0 : goodRoots 100 100 0 0 = [] := by
  norm_num [goodRoots, sqrtQ_40000, tolTMin, tolTMax]

theorem goodRoots_const_0 : goodRoots (0 : ℚ) 0 0 0 = [] := by
  norm_num [goodRoots]

theorem goodRoots_const_100 : goodRoots (100 : ℚ) 100 100 100 = [] := by
  norm_num [goodRoots]

theorem ppaSquareA : processPairAxis ⟨0, 0⟩ 0 0 100 100 0 = ⟨0, 100⟩ := by
  norm_num [processPairAxis, axisCandidates, goodRoots_0_to_100, updCand]

theorem ppaSquareB : processPairAxis ⟨0, 100⟩ 100 100 100 100 0 = ⟨0, 100⟩ := by
  norm_num [processPairAxis, axisCandidates, goodRoots_const_100, updCand]

theorem ppaSquareC : processPairAxis ⟨0, 100⟩ 100 100 0 0 0 = ⟨0, 100⟩ := by
  norm_num [processPairAxis, axisCandidates, goodRoots_100_to_0, updCand]

theorem ppaSquareD : processPairAxis ⟨0, 100⟩ 0 0 0 0 0 = ⟨0, 100⟩ := by
  norm_num [processPairAxis, axisCandidates, goodRoots_const_0, updCand]

theorem ppaSquareE : processPairAxis ⟨0, 0⟩ 0 0 0 0 0 = ⟨0, 0⟩ := by
  norm_num [processPairAxis, axisCandidates, goodRoots_const_0, updCand]

theorem squareSegPairs : segPairs [sq0, sq1, sq2, sq3] true =
    [(sq0, sq1), (sq1, sq2), (sq2, sq3), (sq3, sq0)] := by
  simp [segPairs, sq0, sq1, sq2, sq3]

theorem squareFoldX :
    List.foldl (boundsFoldStepX 0) ⟨sq0.point.x, sq0.point.x⟩
      [(sq0, sq1), (sq1, sq2), (sq2, sq3), (sq3, sq0)] = ⟨0, 100⟩ := by
  have step1 : boundsFoldStepX 0 ⟨sq0.point.x, sq0.point.x⟩ (sq0, sq1) =
      ⟨0, 100⟩ := by
    show processPairAxis ⟨sq0.point.x, sq0.point.x⟩ sq0.point.x
      (sq0.point.x + sq0.handleOut.x) (sq1.point.x + sq1.handleIn.x)
      sq1.point.x 0 = ⟨0, 100⟩
    norm_num [sq0, sq1, ppaSquareA]
  have step2 : boundsFoldStepX 0 ⟨0, 100⟩ (sq1, sq2) = ⟨0, 100⟩ := by
    show processPairAxis ⟨0, 100⟩ sq1.point.x
      (sq1.point.x + sq1.handleOut.x) (sq2.point.x + sq2.handleIn.x)
      sq2.point.x 0 = ⟨0, 100⟩
    norm_num [sq1, sq2, ppaSquareB]
  have step3 : boundsFoldStepX 0 ⟨0, 100⟩ (sq2, sq3) = ⟨0, 100⟩ := by
    show processPairAxis ⟨0, 100⟩ sq2.point.x
      (sq2.point.x + sq2.handleOut.x) (sq3.point.x + sq3.handleIn.x)
      sq3.point.x 0 = ⟨0, 100⟩
    norm_num [sq2, sq3, ppaSquareC]
  have step4 : boundsFoldStepX 0 ⟨0, 100⟩ (sq3, sq0) = ⟨0, 100⟩ := by
    show processPairAxis ⟨0, 100⟩ sq3.point.x
      (sq3.point.x + sq3.handleOut.x) (sq0.point.x + sq0.handleIn.x)
      sq0.point.x 0 = ⟨0, 100⟩
    norm_num [sq3, sq0, ppaSquareD]
  rw [List.foldl_cons, step1, List.foldl_cons, step2, List.foldl_cons, step3,
    List.foldl_cons, step4, List.foldl_nil]

theorem squareFoldY :
    List.foldl (boundsFoldStepY 0) ⟨sq0.point.y, sq0.point.y⟩
      [(sq0, sq1), (sq1, sq2), (sq2, sq3), (sq3, sq0)] = ⟨0, 100⟩ := by
  have step1 : boundsFoldStepY 0 ⟨sq0.point.y, sq0.point.y⟩ (sq0, sq1) =
      ⟨0, 0⟩ := by
    show processPairAxis ⟨sq0.point.y, sq0.point.y⟩ sq0.point.y
      (sq0.point.y + sq0.handleOut.y) (sq1.point.y + sq1.handleIn.y)
      sq1.point.y 0 = ⟨0, 0⟩
    norm_num [sq0, sq1, ppaSquareE]
  have step2 : boundsFoldStepY 0 ⟨0, 0⟩ (sq1, sq2) = ⟨0, 100⟩ := by
    show processPairAxis ⟨0, 0⟩ sq1.point.y
      (sq1.point.y + sq1.handleOut.y) (sq2.point.y + sq2.handleIn.y)
      sq2.point.y 0 = ⟨0, 100⟩
    norm_num [sq1, sq2, ppaSquareA]
  have step3 : boundsFoldStepY 0 ⟨0, 100⟩ (sq2, sq3) = ⟨0, 100⟩ := by
    show processPairAxis ⟨0, 100⟩ sq2.point.y
      (sq2.point.y + sq2.handleOut.y) (sq3.point.y + sq3.handleIn.y)
      sq3.point.y 0 = ⟨0, 100⟩
    norm_num [sq2, sq3, ppaSquareB]
  have step4 : boundsFoldStepY 0 ⟨0, 100⟩ (sq3, sq0) = ⟨0, 100⟩ := by
    show processPairAxis ⟨0, 100⟩ sq3.point.y
      (sq3.point.y + sq3.handleOut.y) (sq0.point.y + sq0.handleIn.y)
      sq0.point.y 0 = ⟨0, 100⟩
    norm_num [sq3, sq0, ppaSquareC]
  rw [List.foldl_cons, step1, List.foldl_cons, step2, List.foldl_cons, step3,
    List.foldl_cons, step4, List.foldl_nil]

/-- C4: the path built by `moveTo(0,0); lineTo(100,0); lineTo(100,100);
lineTo(0,100); closePath()` reports `getLength() = 400`,
`isClockwise() = true`, and `getBounds()` equal to the rectangle with origin
`(0,0)`, width 100 and height 100. -/
theorem C4_square_scenario :
    squarePath.getLength = 400 ∧ squarePath.isClockwise = true ∧
    squarePath.getBounds = some ⟨0, 0, 100, 100⟩ := by
  refine ⟨?_, ?_, ?_⟩
  · norm_num [PathM.getLength, PathM.getCurvesBuild, curveCount, curveLength,
      squarePath_segments_eval, squarePath_closed_eval, sq0, sq1, sq2, sq3,
      sqrtQ_10000, List.range_succ]
  · norm_num [PathM.isClockwise, clockwiseSamples, edgeSum, Point.add_def,
      squarePath_segments_eval, squarePath_clockwise_eval, sq0, sq1, sq2, sq3,
      List.range_succ, decide_eq_true_eq]
  · show boundsCore squarePath.segments squarePath.closed 0 0 = _
    rw [squarePath_segments_eval, squarePath_closed_eval]
    show some ⟨(List.foldl (boundsFoldStepX 0) ⟨sq0.point.x, sq0.point.x⟩
        (segPairs [sq0, sq1, sq2, sq3] true)).lo,
      (List.foldl (boundsFoldStepY 0) ⟨sq0.point.y, sq0.point.y⟩
        (segPairs [sq0, sq1, sq2, sq3] true)).lo,
      (List.foldl (boundsFoldStepX 0) ⟨sq0.point.x, sq0.point.x⟩
        (segPairs [sq0, sq1, sq2, sq3] true)).hi -
      (List.foldl (boundsFoldStepX 0) ⟨sq0.point.x, sq0.point.x⟩
        (segPairs [sq0, sq1, sq2, sq3] true)).lo,
      (List.foldl (boundsFoldStepY 0) ⟨sq0.point.y, sq0.point.y⟩
        (segPairs [sq0, sq1, sq2, sq3] true)).hi -
      (List.foldl (boundsFoldStepY 0) ⟨sq0.point.y, sq0.point.y⟩
        (segPairs [sq0, sq1, sq2, sq3] true)).lo⟩ =
      some (⟨0, 0, 100, 100⟩ : Rect)
    rw [squareSegPairs, squareFoldX, squareFoldY]
    norm_num

theorem radSq_collinear (p1 p2 p3 : Point) (hg : ArcToM.gQ p1 p2 p3 = 0) :
    ArcToM.radSqQ p1 p2 p3 =
      ((p1.x - p2.x) ^ 2 + (p1.y - p2.y) ^ 2) / 4 := by
  unfold ArcToM.radSqQ ArcToM.cxQ ArcToM.cyQ ArcToM.eQ ArcToM.mQ
  rw [if_pos hg]
  ring

theorem atan2R_bounds (y x : ℝ) :
    -Real.pi < ArcToM.atan2R y x ∧ ArcToM.atan2R y x ≤ Real.pi := by
  have h := Complex.arg_mem_Ioc ⟨x, y⟩
  rw [Set.mem_Ioc] at h
  exact h

theorem extentA_bounds (p1 p2 p3 : Point) :
    -(2 * Real.pi) < ArcToM.extentA p1 p2 p3 ∧
      ArcToM.extentA p1 p2 p3 ≤ 2 * Real.pi := by
  have hA : -Real.pi < ArcToM.angle0 p1 p2 p3 ∧
      ArcToM.angle0 p1 p2 p3 ≤ Real.pi := atan2R_bounds _ _
  have hE : -Real.pi < ArcToM.angleEnd p1 p2 p3 ∧
      ArcToM.angleEnd p1 p2 p3 ≤ Real.pi := atan2R_bounds _ _
  obtain ⟨hA1, hA2⟩ := hA
  obtain ⟨hE1, hE2⟩ := hE
  have hpi := Real.pi_pos
  simp only [ArcToM.extentA]
  split_ifs with h1 h2 h3 <;> constructor <;> linarith

theorem inc_cos_pos (p1 p2 p3 : Point) (hn : 0 < ArcToM.arcSegsZ p1 p2 p3) :
    0 < 1 + Real.cos ((min (max (ArcToM.extentA p1 p2 p3) (-(2 * Real.pi)))
      (2 * Real.pi) / ((ArcToM.arcSegsZ p1 p2 p3 : ℤ) : ℝ)) / 2) := by
  obtain ⟨hlo, hhi⟩ := extentA_bounds p1 p2 p3
  have hpi := Real.pi_pos
  have hclamp : min (max (ArcToM.extentA p1 p2 p3) (-(2 * Real.pi)))
      (2 * Real.pi) = ArcToM.extentA p1 p2 p3 := by
    rw [max_eq_left (by linarith), min_eq_left hhi]
  rw [hclamp]
  have hnR : (0 : ℝ) < ((ArcToM.arcSegsZ p1 p2 p3 : ℤ) : ℝ) := by
    exact_mod_cast hn
  have habsE : |ArcToM.extentA p1 p2 p3| ≤ 2 * Real.pi :=
    abs_le.mpr ⟨by linarith, hhi⟩
  have habs : |ArcToM.extentA p1 p2 p3 / ((ArcToM.arcSegsZ p1 p2 p3 : ℤ) : ℝ)| ≤
      Real.pi / 2 := by
    rw [abs_div, abs_of_pos hnR]
    by_cases hc : |ArcToM.extentA p1 p2 p3| ≥ 2 * Real.pi
    · have h4 : ArcToM.arcSegsZ p1 p2 p3 = 4 := by
        unfold ArcToM.arcSegsZ
        rw [if_pos hc]
      have heq : |ArcToM.extentA p1 p2 p3| = 2 * Real.pi :=
        le_antisymm habsE hc
      rw [heq, h4]
      push_cast
      rw [div_le_div_iff₀ (by norm_num) (by norm_num)]
      linarith
    · have hceil : ArcToM.arcSegsZ p1 p2 p3 =
          ⌈|ArcToM.extentA p1 p2 p3| * 2 / Real.pi⌉ := by
        unfold ArcToM.arcSegsZ
        rw [if_neg hc]
      have hext_pos : 0 < |ArcToM.extentA p1 p2 p3| := by
        by_contra h
        push_neg at h
        have h0 : |ArcToM.extentA p1 p2 p3| = 0 :=
          le_antisymm h (abs_nonneg _)
        rw [hceil, h0] at hn
        simp at hn
      have hle : |ArcToM.extentA p1 p2 p3| * 2 / Real.pi ≤
          ((ArcToM.arcSegsZ p1 p2 p3 : ℤ) : ℝ) := by
        rw [hceil]
        exact_mod_cast Int.le_ceil _
      have h2 : |ArcToM.extentA p1 p2 p3| * 2 ≤
          ((ArcToM.arcSegsZ p1 p2 p3 : ℤ) : ℝ) * Real.pi := by
        rw [div_le_iff₀ hpi] at hle
        linarith
      rw [div_le_iff₀ hnR]
      linarith
  have hhalf : |ArcToM.extentA p1 p2 p3 /
      ((ArcToM.arcSegsZ p1 p2 p3 : ℤ) : ℝ) / 2| ≤ Real.pi / 4 := by
    rw [abs_div]
    have : |(2 : ℝ)| = 2 := by norm_num
    rw [this]
    linarith
  have hmem := abs_le.mp hhalf
  have hcos : 0 < Real.cos (ArcToM.extentA p1 p2 p3 /
      ((ArcToM.arcSegsZ p1 p2 p3 : ℤ) : ℝ) / 2) := by
    apply Real.cos_pos_of_mem_Ioo
    rw [Set.mem_Ioo]
    constructor <;> [linarith [hmem.1]; linarith [hmem.2]]
  linarith

/-- C5: for every `arcTo` call whose start, through and end points are
collinear (the circumcenter denominator `g` is zero), the operation follows
the source's deterministic `m = 0` fallback and every segment it appends has
finite coordinates — no appended coordinate passes through a NaN-producing
operation (negative `sqrt` radicand, zero-denominator division). -/
theorem C5_arcTo_collinear_finite (p1 p2 p3 : Point)
    (hg : ArcToM.gQ p1 p2 p3 = 0) :
    ∃ l, ArcToM.arcAppended? p1 p2 p3 = some l := by
  unfold ArcToM.arcAppended?
  by_cases hn : ArcToM.arcSegsZ p1 p2 p3 ≤ 0
  · exact ⟨[], by rw [if_pos hn]⟩
  · rw [if_neg hn]
    have hnpos : 0 < ArcToM.arcSegsZ p1 p2 p3 := by omega
    have hrad : 0 ≤ ArcToM.radSqQ p1 p2 p3 := by
      rw [radSq_collinear p1 p2 p3 hg]
      positivity
    have hradQ : ¬ ArcToM.radSqQ p1 p2 p3 < 0 := not_lt.mpr hrad
    have hradius : ArcToM.radius? p1 p2 p3 =
        some (Real.sqrt ((ArcToM.radSqQ p1 p2 p3 : ℚ) : ℝ)) := by
      unfold ArcToM.radius?
      rw [if_neg hradQ]
    have hinc : ArcToM.inc? p1 p2 p3 =
        some (min (max (ArcToM.extentA p1 p2 p3) (-(2 * Real.pi)))
          (2 * Real.pi) / ((ArcToM.arcSegsZ p1 p2 p3 : ℤ) : ℝ)) := by
      unfold ArcToM.inc?
      rw [if_neg (by omega)]
    have hcos := inc_cos_pos p1 p2 p3 hnpos
    have hz : ArcToM.zCoef? p1 p2 p3 =
        some (4 / 3 * Real.sin ((min (max (ArcToM.extentA p1 p2 p3)
            (-(2 * Real.pi))) (2 * Real.pi) /
            ((ArcToM.arcSegsZ p1 p2 p3 : ℤ) : ℝ)) / 2) /
          (1 + Real.cos ((min (max (ArcToM.extentA p1 p2 p3)
            (-(2 * Real.pi))) (2 * Real.pi) /
            ((ArcToM.arcSegsZ p1 p2 p3 : ℤ) : ℝ)) / 2))) := by
      unfold ArcToM.zCoef?
      rw [hinc]
      show (if 1 + Real.cos _ = 0 then none else some _) = some _
      rw [if_neg (ne_of_gt hcos)]
    rw [hradius, hinc, hz]
    exact ⟨_, rfl⟩

/-- Witness for `C5_arcTo_collinear_finite`: the collinear triple
`(0,0), (1,0), (2,0)`. -/
theorem C5_arcTo_collinear_finite_witness :
    ArcToM.gQ ⟨0, 0⟩ ⟨1, 0⟩ ⟨2, 0⟩ = 0 ∧
    ∃ l, ArcToM.arcAppended? ⟨0, 0⟩ ⟨1, 0⟩ ⟨2, 0⟩ = some l :=
  ⟨by simp [ArcToM.gQ], C5_arcTo_collinear_finite ⟨0, 0⟩ ⟨1, 0⟩ ⟨2, 0⟩
    (by simp [ArcToM.gQ])⟩
